import Mathlib

/-!
Verification development for the lock-up list scraping engine
(`LockUpScraper2.0/scripts/scraper.py`).

The Python source is shallowly embedded: page texts are `List Char`,
Python `re` searches over the concrete patterns used by the source are
modelled by a small backtracking matcher with Python's priority order
(leftmost start, greedy repetition, left alternative first), and fallible
code (`raise`) is modelled with `Except`.  Only the ASCII fragment of the
Python character classes `\s` and `\d` is modelled; all inputs handled by
the scraper are ASCII page texts.
-/

namespace Scraper

/-- Python `\s` (ASCII fragment): space, tab, newline, vertical tab,
form feed, carriage return. -/
def wsChar (c : Char) : Bool :=
  c = ' ' || c = '\t' || c = '\n' || c = '\x0b' || c = '\x0c' || c = '\r'

/-- Python `\d` (ASCII fragment). -/
def digitChar (c : Char) : Bool :=
  '0' ≤ c && c ≤ '9'

/-- `slice t a b` models the Python slice `t[a:b]` (for `0 ≤ a ≤ b`). -/
def slice (t : List Char) (a b : Nat) : List Char :=
  (t.drop a).take (b - a)

/-- Length of the run of characters satisfying `p` starting at index `i`
(the amount a greedy repetition over a character class consumes). -/
def runLen (p : Char → Bool) (t : List Char) (i : Nat) : Nat :=
  ((t.drop i).takeWhile p).length

/-- `litAt t i s`: the literal `s` occurs in `t` starting at index `i`. -/
def litAt (t : List Char) (i : Nat) (s : List Char) : Bool :=
  slice t i (i + s.length) = s

/-- A position is a line start for `re.M` anchors: offset 0 or just after
a newline. -/
def lineStart (t : List Char) (i : Nat) : Bool :=
  i = 0 || t.get? (i - 1) = some '\n'

/-- Numeric value of a digit character. -/
def digitVal (c : Char) : Nat := c.toNat - '0'.toNat

/-- Value of the digit run `t[a:b]` (Python `int(match.group("number"))`). -/
def digitsVal (t : List Char) (a b : Nat) : Nat :=
  (slice t a b).foldl (fun acc c => 10 * acc + digitVal c) 0

/-- One regex match of the anchor pattern
`^\s+(?P<number>\d{2,3})(?= )` (with `re.M`): full-match start, the span
of the `number` group and its integer value.  The match ends at `numEnd`
(the lookahead is zero-width). -/
structure AnchorMatch where
  start : Nat
  numStart : Nat
  numEnd : Nat
  number : Nat
deriving DecidableEq, Repr

/-- Attempt of the anchor regex at position `i`, following the Python
backtracking order.  `^` requires a line start; `\s+` is greedy over a
run of whitespace (digits are not whitespace, so only the maximal run
can be followed by `\d`); `\d{2,3}` greedily tries three digits before
two; `(?= )` checks the next character. -/
def anchorMatchAt (t : List Char) (i : Nat) : Option AnchorMatch :=
  if ¬ lineStart t i then none
  else if runLen wsChar t i = 0 then none
  else if (t.get? (i + runLen wsChar t i)).any digitChar ∧
      (t.get? (i + runLen wsChar t i + 1)).any digitChar ∧
      (t.get? (i + runLen wsChar t i + 2)).any digitChar ∧
      t.get? (i + runLen wsChar t i + 3) = some ' ' then
    some ⟨i, i + runLen wsChar t i, i + runLen wsChar t i + 3,
      digitsVal t (i + runLen wsChar t i) (i + runLen wsChar t i + 3)⟩
  else if (t.get? (i + runLen wsChar t i)).any digitChar ∧
      (t.get? (i + runLen wsChar t i + 1)).any digitChar ∧
      t.get? (i + runLen wsChar t i + 2) = some ' ' then
    some ⟨i, i + runLen wsChar t i, i + runLen wsChar t i + 2,
      digitsVal t (i + runLen wsChar t i) (i + runLen wsChar t i + 2)⟩
  else none

/-- `re.finditer` scan for the anchor pattern: try each position from
left to right, and after a match continue at its end (matches are
non-overlapping). -/
def findAnchorsFrom (t : List Char) : Nat → Nat → List AnchorMatch
  | 0, _ => []
  | fuel + 1, i =>
    if i > t.length then []
    else
      match anchorMatchAt t i with
      | some m => m :: findAnchorsFrom t fuel m.numEnd
      | none => findAnchorsFrom t fuel (i + 1)

/-- All anchor matches of a page text, in document order
(`re.finditer(r"^\s+(?P<number>\d{2,3})(?= )", lu_text, flags=re.M)`). -/
def findAnchors (t : List Char) : List AnchorMatch :=
  findAnchorsFrom t (t.length + 1) 0

/-- Embedding of the `LuNum` object state: `_match` (absent for
placeholders), `_block_text`, `_fixed_number`, `_is_duplicate`
(`None`/`False`/`True` becomes `Option Bool`), `_is_missing`. -/
structure LuNum where
  match_ : Option AnchorMatch
  blockText : List Char
  fixedNumber : Option Nat := none
  isDuplicate : Option Bool := none
  isMissing : Bool := false
deriving DecidableEq, Repr

/-- The `LuNum.number` property: the corrected number when
`_fixed_number` is set, otherwise the scanned number.  (In the source
both can be unset only on a state never constructed; `0` stands for that
unreachable read.) -/
def LuNum.number (lu : LuNum) : Nat :=
  match lu.fixedNumber with
  | some n => n
  | none => (lu.match_.map AnchorMatch.number).getD 0

/-- The `LuNum.is_fixed` property. -/
def LuNum.isFixed (lu : LuNum) : Bool :=
  lu.fixedNumber.isSome

/-- The block-construction loop of `create_lunums`: block `i` spans from
its match start to the next match start, the last block to the end of
the text. -/
def buildBlocks (t : List Char) : List AnchorMatch → List LuNum
  | [] => []
  | [m] => [{ match_ := some m, blockText := slice t m.start t.length }]
  | m :: m2 :: rest =>
    { match_ := some m, blockText := slice t m.start m2.start } ::
      buildBlocks t (m2 :: rest)

/-- `create_lunums`: raises `ValueError` when the anchor scan finds
nothing, otherwise returns one `LuNum` per anchor with its block. -/
def createLunums (t : List Char) : Except String (List LuNum) :=
  match findAnchors t with
  | [] => .error "No Lock Up Numbers Found! Check the Lock up list."
  | m :: ms => .ok (buildBlocks t (m :: ms))

/-- `numbers = [lu.number for lu in lunums]`. -/
def luNumbers (ls : List LuNum) : List Nat :=
  ls.map LuNum.number

/-- The sequence walk of `validate_normalize_lunums`: starting from
`expected = numbers[0]`, an out-of-order event is recorded whenever
`numbers[i] != expected`, and `expected` always re-synchronizes to
`numbers[i] + 1`.  The first element never produces an event since
`start_num` is overwritten with `numbers[0]`.  Only emptiness of the
event list matters downstream. -/
def hasOutOfOrderFrom : List Nat → Nat → Bool
  | [], _ => false
  | n :: rest, expected => (n ≠ expected : Bool) || hasOutOfOrderFrom rest (n + 1)

/-- Whether the walk records any out-of-order event. -/
def hasOutOfOrder : List Nat → Bool
  | [] => false
  | n0 :: rest => hasOutOfOrderFrom rest (n0 + 1)

/-- The per-position fix decision of the correction pass, taken from the
*original* `numbers` array (never from already-corrected values):
middle positions are fixed to `prev+1` iff `next == prev + 2` and the
value differs from `prev+1`; the first position (with `start_num`
already overwritten by `numbers[0]`) requires the contradictory
`numbers[1] != numbers[0]+1` and `numbers[1] == numbers[0]+1`; the last
position is fixed to `prev+1` whenever it differs from it. -/
def fixTarget (nums : List Nat) (i : Nat) : Option Nat :=
  if 0 < i ∧ i < nums.length - 1 then
    if nums.getD (i + 1) 0 = nums.getD (i - 1) 0 + 2 ∧
        nums.getD i 0 ≠ nums.getD (i - 1) 0 + 1 then
      some (nums.getD (i - 1) 0 + 1)
    else none
  else if i = 0 ∧ 1 < nums.length then
    if (nums.getD i 0 ≠ nums.getD 0 0 ∨
        nums.getD 1 0 ≠ nums.getD i 0 + 1) ∧
        nums.getD 1 0 = nums.getD 0 0 + 1 then
      some (nums.getD 0 0)
    else none
  else if i = nums.length - 1 ∧ 1 < nums.length then
    if nums.getD i 0 ≠ nums.getD (i - 1) 0 + 1 then
      some (nums.getD (i - 1) 0 + 1)
    else none
  else none

/-- Decimal digit string of a number (`str(n)`). -/
def natChars (n : Nat) : List Char :=
  (Nat.repr n).data

/-- Python `str.zfill`: left-pad with `'0'` to the given width. -/
def zfill (s : List Char) (w : Nat) : List Char :=
  List.replicate (w - s.length) '0' ++ s

/-- Python `s.replace(old, new, 1)`: replace the first (leftmost)
occurrence of `old` in `s` with `new`. -/
def replaceFirst (s old new : List Char) : List Char :=
  match s with
  | [] => if old = [] then new else []
  | c :: rest =>
    if litAt s 0 old ∧ old ≠ [] then new ++ s.drop old.length
    else c :: replaceFirst rest old new

/-- One step of the correction pass: a fixed position gets a fresh
`LuNum` with the target number, the old number rewritten in the block
text (first occurrence of `"<old> "`, zero-padded to the old width), and
cleared flags; an unfixed position keeps its `LuNum` with
`_is_duplicate` set to `False`. -/
def applyFix (nums : List Nat) (i : Nat) (lu : LuNum) : LuNum :=
  match fixTarget nums i with
  | some c =>
    let oldS := natChars (nums.getD i 0)
    let newS := zfill (natChars c) oldS.length
    { match_ := lu.match_,
      blockText := replaceFirst lu.blockText (oldS ++ [' ']) (newS ++ [' ']),
      fixedNumber := some c,
      isDuplicate := some false,
      isMissing := false }
  | none => { lu with isDuplicate := some false }

/-- The correction pass: runs only when the walk recorded an
out-of-order event; otherwise every block merely gets
`_is_duplicate = False`. -/
def fixPass (ls : List LuNum) : List LuNum :=
  if hasOutOfOrder (luNumbers ls) then
    ls.mapIdx (fun i lu => applyFix (luNumbers ls) i lu)
  else ls.map (fun lu => { lu with isDuplicate := some false })

/-- Duplicate detection: scan the corrected sequence with a seen set;
later occurrences of an already-seen value are flagged. -/
def flagDups : List LuNum → List Nat → List LuNum
  | [], _ => []
  | lu :: rest, seen =>
    (if lu.number ∈ seen then { lu with isDuplicate := some true } else lu) ::
      flagDups rest (lu.number :: seen)

/-- Python `min` over a non-empty list (`0` on `[]`, never used there). -/
def minNat : List Nat → Nat
  | [] => 0
  | n :: rest => rest.foldl Nat.min n

/-- Python `max` over a non-empty list (`0` on `[]`, never used there). -/
def maxNat : List Nat → Nat
  | [] => 0
  | n :: rest => rest.foldl Nat.max n

/-- `sorted(set(range(min, max+1)) - set(corrected_numbers))`. -/
def missingNumbers (nums : List Nat) : List Nat :=
  (List.range' (minNat nums) (maxNat nums + 1 - minNat nums)).filter
    (fun k => k ∉ nums)

/-- The placeholder `LuNum` synthesized for a missing number: no match,
empty block, the number stored as `_fixed_number`, `_is_missing`. -/
def placeholderFor (v : Nat) : LuNum :=
  { match_ := none, blockText := [], fixedNumber := some v,
    isDuplicate := some false, isMissing := true }

/-- The placeholder insertion-position loop: `insert_pos` advances past
each element whose number is below the missing value and stops at the
first that is not. -/
def insertPos (v : Nat) : List LuNum → Nat
  | [] => 0
  | lu :: rest => if lu.number < v then insertPos v rest + 1 else 0

/-- `fixed_lunums.insert(insert_pos, placeholder_lu)`. -/
def insertPlaceholder (l : List LuNum) (v : Nat) : List LuNum :=
  l.take (insertPos v l) ++ [placeholderFor v] ++ l.drop (insertPos v l)

/-- `validate_normalize_lunums` on a non-empty list: correction pass,
duplicate flagging, then placeholder synthesis for every number missing
from `[min, max]` of the corrected sequence, inserted in ascending
order of missing number. -/
def validateCore (ls : List LuNum) : List LuNum :=
  let fixed := fixPass ls
  let corrected := luNumbers fixed
  let flagged := flagDups fixed []
  (missingNumbers corrected).foldl insertPlaceholder flagged

/-- `validate_normalize_lunums` including the empty-input `ValueError`. -/
def validateNormalizeLunums (ls : List LuNum) : Except String (List LuNum) :=
  if ls.isEmpty then .error "No LuNum objects to validate"
  else .ok (validateCore ls)

/-! ### A matcher for the field-extraction patterns

The concrete regexes used by `select_line`, `LockUpBlock` and the
leading-newline `re.sub` only ever apply repetition to single-character
classes, and only use fixed-width lookbehinds, exactly as Python's `re`
requires.  The matcher below reproduces Python's backtracking priority:
left alternative first, greedy repetition longest first, concatenation
backtracks through the left part's candidates in order. -/

/-- Regex abstract syntax for the patterns appearing in the source. -/
inductive RE where
  /-- a single character from a class -/
  | cls (p : Char → Bool)
  /-- a literal string -/
  | lit (s : List Char)
  | cat (a b : RE)
  | alt (a b : RE)
  /-- greedy `p{lo,hi}` over a character class (`hi = none` unbounded) -/
  | rep (p : Char → Bool) (lo : Nat) (hi : Option Nat)
  /-- positive lookahead `(?=r)` -/
  | look (r : RE)
  /-- positive fixed-width lookbehind `(?<=r)`, `w` the width of `r` -/
  | lookb (w : Nat) (r : RE)
  /-- `^` (start of string, or of a line under `re.M`) -/
  | bol
  /-- `$` (end of string, or of a line under `re.M`) -/
  | eol
  /-- capture group `n` -/
  | grp (n : Nat) (r : RE)

/-- Captured group spans: `(group id, start, end)`. -/
abbrev Caps := List (Nat × Nat × Nat)

/-- Candidate list `[hi, hi-1, ..., lo]` for greedy repetition. -/
def descRange (lo hi : Nat) : List Nat :=
  (List.range' lo (hi + 1 - lo)).reverse

/-- Minimum, kept as a plain `if` for easy arithmetic reasoning. -/
def natMin (a b : Nat) : Nat := if a ≤ b then a else b

theorem natMin_le_left (a b : Nat) : natMin a b ≤ a := by
  unfold natMin; split <;> omega

theorem natMin_zero (a : Nat) : natMin a 0 = 0 := by
  unfold natMin; split <;> omega

theorem natMin_self (a : Nat) : natMin a a = a := by
  unfold natMin; split <;> omega

/-- All ways `r` can match in `t` starting at `i`, as `(end, captures)`
pairs in Python's backtracking priority order (head = the match the
engine commits to). `multi` is the `re.M` flag. -/
def reMatches (multi : Bool) (t : List Char) : RE → Nat → List (Nat × Caps)
  | .cls p, i =>
    match t.get? i with
    | some c => if p c then [(i + 1, [])] else []
    | none => []
  | .lit s, i => if litAt t i s then [(i + s.length, [])] else []
  | .cat a b, i =>
    (reMatches multi t a i).flatMap fun jc =>
      (reMatches multi t b jc.1).map fun kc => (kc.1, jc.2 ++ kc.2)
  | .alt a b, i => reMatches multi t a i ++ reMatches multi t b i
  | .rep p lo hi, i =>
    let run := runLen p t i
    let kmax := natMin run (hi.getD run)
    (descRange lo kmax).map fun k => (i + k, [])
  | .look r, i => if (reMatches multi t r i).isEmpty then [] else [(i, [])]
  | .lookb w r, i =>
    if w ≤ i ∧ (reMatches multi t r (i - w)).any (fun jc => jc.1 = i) then
      [(i, [])]
    else []
  | .bol, i =>
    if (if multi then lineStart t i else (i = 0 : Bool)) then [(i, [])] else []
  | .eol, i =>
    if (if multi then (i = t.length : Bool) || t.get? i = some '\n'
        else (i = t.length : Bool) ||
          ((i + 1 = t.length : Bool) && t.get? i = some '\n')) then
      [(i, [])]
    else []
  | .grp n r, i =>
    (reMatches multi t r i).map fun jc => (jc.1, (n, i, jc.1) :: jc.2)

/-- The scan of `re.search` from position `i` (fuel-driven): the first
position admitting a match wins, with that position's highest-priority
match. -/
def reSearchFrom (multi : Bool) (r : RE) (t : List Char) :
    Nat → Nat → Option (Nat × Nat × Caps)
  | 0, _ => none
  | fuel + 1, i =>
    match reMatches multi t r i with
    | jc :: _ => some (i, jc.1, jc.2)
    | [] => if i < t.length then reSearchFrom multi r t fuel (i + 1) else none

/-- `re.search(r, t)`: leftmost match as `(start, end, captures)`. -/
def reSearch (multi : Bool) (r : RE) (t : List Char) :
    Option (Nat × Nat × Caps) :=
  reSearchFrom multi r t (t.length + 1) 0

/-- `m.group()` of a search result: the matched text. -/
def searchGroup0 (multi : Bool) (r : RE) (t : List Char) :
    Option (List Char) :=
  (reSearch multi r t).map fun sec => slice t sec.1 sec.2.1

/-- `m.group(n)`: span of capture `n` if it participated in the match. -/
def capSpan (caps : Caps) (n : Nat) : Option (Nat × Nat) :=
  (caps.find? (fun c => c.1 = n)).map fun c => c.2

/-- Python `str.strip()` (ASCII whitespace). -/
def pyStrip (s : List Char) : List Char :=
  ((s.dropWhile wsChar).reverse.dropWhile wsChar).reverse

/-- `handle_nulls`: `nan` (here `none`) when the search found nothing,
otherwise the matched text, optionally stripped. -/
def handleNulls (m : Option (List Char)) (strip : Bool := false) :
    Option (List Char) :=
  m.map fun s => if strip then pyStrip s else s

/-- `re.sub(r, "", t)` for a pattern that always consumes at least one
character: scan left to right, drop each non-overlapping match,
otherwise copy the character. -/
def reSubDelFrom (multi : Bool) (r : RE) (t : List Char) :
    Nat → Nat → List Char
  | 0, _ => []
  | fuel + 1, i =>
    if i ≥ t.length then []
    else
      match reMatches multi t r i with
      | jc :: _ =>
        if i < jc.1 then reSubDelFrom multi r t fuel jc.1
        else (t.getD i ' ') :: reSubDelFrom multi r t fuel (i + 1)
      | [] => (t.getD i ' ') :: reSubDelFrom multi r t fuel (i + 1)

/-- `re.sub(r, "", t)`. -/
def reSubDel (multi : Bool) (r : RE) (t : List Char) : List Char :=
  reSubDelFrom multi r t (t.length + 1) 0

/-! ### `select_line` -/

/-- `.` (without `re.S`): any character except newline. -/
def dotC (c : Char) : Bool := c ≠ '\n'

/-- `(?s:.)`: any character. -/
def anyC (_ : Char) : Bool := true

/-- One `".*\n"` unit of `select_line`'s prefix pattern. -/
def linePat : RE := .cat (.rep dotC 0 none) (.lit ['\n'])

/-- `".*\n" * m` (the empty pattern for `m = 0`). -/
def linesPat : Nat → RE
  | 0 => .rep dotC 0 (some 0)
  | m + 1 => .cat linePat (linesPat m)

/-- `".*$"` under `re.M`. -/
def dotStarEol : RE := .cat (.rep dotC 0 none) .eol

/-- `select_line(text, k)`: for `k = 1` the prefix up to the end of the
first line; otherwise the span between the ends of the matches of
`".*\n" * (k-1)` and `".*\n" * (k-1) + ".*$"`.  When a needed search
returns `None`, the source dereferences `.end()` on it and raises
`AttributeError`, modelled as `.error`. -/
def selectLine (t : List Char) (k : Nat) : Except String (List Char) :=
  if k = 1 then
    match reSearch true dotStarEol t with
    | some se => .ok (slice t 0 se.2.1)
    | none => .error "AttributeError"
  else
    match reSearch true (linesPat (k - 1)) t with
    | none => .error "AttributeError"
    | some s1 =>
      match reSearch true (.cat (linesPat (k - 1)) dotStarEol) t with
      | none => .error "AttributeError"
      | some s2 => .ok (slice t s1.2.1 s2.2.1)

/-! ### The field-extraction patterns of `LockUpBlock`

Each definition transliterates one regex literal of the source; the
`re.M` flag is passed at the call site exactly where the source passes
`flags=re.M`. -/

/-- `[ao]` -/
def aoC (c : Char) : Bool := c = 'a' || c = 'o'

/-- `[il]` -/
def ilC (c : Char) : Bool := c = 'i' || c = 'l'

/-- `[ -]` -/
def spDashC (c : Char) : Bool := c = ' ' || c = '-'

/-- `[ ]` -/
def spC (c : Char) : Bool := c = ' '

/-- `[A-Za-z]` fragment shared by the name classes. -/
def alphaC (c : Char) : Bool :=
  ('A' ≤ c && c ≤ 'Z') || ('a' ≤ c && c ≤ 'z')

/-- `[A-Za-z.’'\- !]` -/
def nameC1 (c : Char) : Bool :=
  alphaC c || c = '.' || c = '’' || c = '\'' || c = '-' || c = ' ' || c = '!'

/-- `[A-Za-z.’'\-!]` -/
def nameC2 (c : Char) : Bool :=
  alphaC c || c = '.' || c = '’' || c = '\'' || c = '-' || c = '!'

/-- `[A-Za-z.'\-!]` -/
def nameC3 (c : Char) : Bool :=
  alphaC c || c = '.' || c = '\'' || c = '-' || c = '!'

/-- `[0-9A-Za-z.’'\- ,!]` -/
def tnFallC (c : Char) : Bool :=
  digitChar c || alphaC c || c = '.' || c = '’' || c = '\'' || c = '-' ||
    c = ' ' || c = ',' || c = '!'

/-- `[A-Za-z.'\- ,]` -/
def nFallC (c : Char) : Bool :=
  alphaC c || c = '.' || c = '\'' || c = '-' || c = ' ' || c = ','

/-- `[A-Za-z.'\- ]` -/
def offC1 (c : Char) : Bool :=
  alphaC c || c = '.' || c = '\'' || c = '-' || c = ' '

/-- `[A-Za-z.'\-]` -/
def offC2 (c : Char) : Bool :=
  alphaC c || c = '.' || c = '\'' || c = '-'

/-- `[ 0-9]` -/
def badgeC (c : Char) : Bool := c = ' ' || digitChar c

/-- `[(USAO)(OAG)(Traffic) &]` (a character class in the source). -/
def prosC (c : Char) : Bool :=
  c = '(' || c = 'U' || c = 'S' || c = 'A' || c = 'O' || c = ')' ||
    c = 'G' || c = 'T' || c = 'r' || c = 'a' || c = 'f' || c = 'i' ||
    c = 'c' || c = ' ' || c = '&'

/-- `\n` as a class (for the `re.sub` pattern `\n+...`). -/
def nlC (c : Char) : Bool := c = '\n'

/-- `"\d\d(?= year old)"` -/
def ageRE : RE :=
  .cat (.cls digitChar) (.cat (.cls digitChar) (.look (.lit " year old".data)))

/-- `"Male|Female(?= )"` (the lookahead binds to the second branch). -/
def genderRE : RE :=
  .alt (.lit "Male".data) (.cat (.lit "Female".data) (.look (.lit " ".data)))

/-- `"(?<=     )White|Black [ao]r African-American|Hispanic or Latino(?=[ -])"` -/
def raceLineRE : RE :=
  .alt (.cat (.lookb 5 (.lit "     ".data)) (.lit "White".data))
    (.alt
      (.cat (.lit "Black ".data)
        (.cat (.cls aoC) (.lit "r African-American".data)))
      (.cat (.lit "Hispanic or Latino".data) (.look (.cls spDashC))))

/-- `"(?<=     )White|B[il]ack [ao]r African-American|Hispanic or Latino(?=[ -])"` -/
def raceBlockRE : RE :=
  .alt (.cat (.lookb 5 (.lit "     ".data)) (.lit "White".data))
    (.alt
      (.cat (.lit "B".data)
        (.cat (.cls ilC)
          (.cat (.lit "ack ".data)
            (.cat (.cls aoC) (.lit "r African-American".data)))))
      (.cat (.lit "Hispanic or Latino".data) (.look (.cls spDashC))))

/-- `"\d{2}\/\d{2}\/\d{4} \d{4}"` (the arrest date-time; width 15). -/
def dateTimeRE : RE :=
  .cat (.rep digitChar 2 (some 2))
    (.cat (.lit "/".data)
      (.cat (.rep digitChar 2 (some 2))
        (.cat (.lit "/".data)
          (.cat (.rep digitChar 4 (some 4))
            (.cat (.lit " ".data) (.rep digitChar 4 (some 4)))))))

/-- `"\d{2}\/\d{2}\/\d{4}\d{4}"` (width 14). -/
def dateTimeNoSpRE : RE :=
  .cat (.rep digitChar 2 (some 2))
    (.cat (.lit "/".data)
      (.cat (.rep digitChar 2 (some 2))
        (.cat (.lit "/".data)
          (.cat (.rep digitChar 4 (some 4)) (.rep digitChar 4 (some 4))))))

/-- `"\d{2}\/\d{2}\/\d{4}"` (the court date). -/
def courtDateRE : RE :=
  .cat (.rep digitChar 2 (some 2))
    (.cat (.lit "/".data)
      (.cat (.rep digitChar 2 (some 2))
        (.cat (.lit "/".data) (.rep digitChar 4 (some 4)))))

/-- `"\d\d[ ]year[ ]old"` (lookahead body of the true-name fallback). -/
def yearOldRE : RE :=
  .cat (.cls digitChar) (.cat (.cls digitChar) (.lit " year old".data))

/-- The primary `true_name` pattern (line 1). -/
def trueNameRE : RE :=
  .alt
    (.cat (.lookb 5 (.lit "     ".data))
      (.cat (.rep nameC1 1 none)
        (.cat (.lit ", ".data)
          (.cat (.rep nameC2 1 none) (.look (.lit "          ".data))))))
    (.cat (.rep nameC1 1 none)
      (.cat (.lit ", ".data)
        (.cat (.rep nameC3 1 none)
          (.cat (.rep spC 0 (some 6))
            (.cat (.rep nameC3 1 none) (.look (.lit "     ".data)))))))

/-- The `true_name` fallback (anchored to a preceding date-time stamp). -/
def trueNameFallRE : RE :=
  .alt
    (.cat (.lookb 15 dateTimeRE)
      (.cat (.rep tnFallC 1 none) (.look yearOldRE)))
    (.cat (.lookb 14 dateTimeNoSpRE)
      (.cat (.rep tnFallC 1 none) (.look yearOldRE)))

/-- The primary `name` pattern (line 2). -/
def nameRE : RE :=
  .alt
    (.cat (.lookb 5 (.lit "     ".data))
      (.cat (.rep nameC1 1 none)
        (.cat (.lit ", ".data)
          (.cat (.rep nameC2 1 none) (.look (.lit "     ".data))))))
    (.cat (.rep nameC1 1 none)
      (.cat (.lit ", ".data)
        (.cat (.rep nameC2 1 none)
          (.cat (.rep spC 0 (some 6))
            (.cat (.rep nameC3 1 none) (.look (.lit "          ".data)))))))

/-- The `name` fallback (anchored to a preceding 9-digit number). -/
def nameFallRE : RE :=
  .cat (.lookb 9 (.rep digitChar 9 (some 9)))
    (.cat (.rep nFallC 1 none)
      (.look (.alt (.lit "White".data)
        (.alt
          (.cat (.lit "Black ".data)
            (.cat (.cls aoC) (.lit "r African-American".data)))
          (.cat (.lit "Hispanic ".data)
            (.cat (.cls aoC) (.lit "r Latino".data)))))))

/-- `"(?<=     )\d{9}(?=     )"` (the arrest number). -/
def arrestNumberRE : RE :=
  .cat (.lookb 5 (.lit "     ".data))
    (.cat (.rep digitChar 9 (some 9)) (.look (.lit "     ".data)))

/-- The arresting-officer pattern with its `name` and `badge` groups
(modelled as captures 1 and 2). -/
def officerRE : RE :=
  .cat
    (.grp 1 (.alt
      (.cat (.rep offC1 1 none) (.cat (.lit ", ".data) (.rep offC2 1 none)))
      (.cat (.lookb 1 (.cls digitChar)) (.rep offC1 1 none))))
    (.grp 2 (.rep badgeC 0 none))

/-- `"(?<=^)[(USAO)(OAG)(Traffic) &]+(?=     )"` (the prosecutor). -/
def prosecutorRE : RE :=
  .cat (.lookb 0 .bol) (.cat (.rep prosC 1 none) (.look (.lit "     ".data)))

/-- `"(?<=Assigned To: ).+\)"` (the assigned-defense span). -/
def assignedRE : RE :=
  .cat (.lookb 13 (.lit "Assigned To: ".data))
    (.cat (.rep dotC 1 none) (.lit ")".data))

/-- `".+(?= \()"` (assigned name, inside the assigned-defense span). -/
def assignedNameRE : RE :=
  .cat (.rep dotC 1 none) (.look (.lit " (".data))

/-- `"(?<=\().+(?=\))"` (assigned affiliation). -/
def assignedAffilRE : RE :=
  .cat (.lookb 1 (.lit "(".data))
    (.cat (.rep dotC 1 none) (.look (.lit ")".data)))

/-- `"(?<=Release\n)(?s:.)*(?=Assigned To)"` (the charges span). -/
def chargesRE : RE :=
  .cat (.lookb 8 (.lit "Release\n".data))
    (.cat (.rep anyC 0 none) (.look (.lit "Assigned To".data)))

/-- `"[0-9]{6}(?=     |$)"` (the PDID). -/
def pdidRE : RE :=
  .cat (.rep digitChar 6 (some 6)) (.look (.alt (.lit "     ".data) .eol))

/-- `"[0-9]{8}(?=     |$)"` (the CCN). -/
def ccnRE : RE :=
  .cat (.rep digitChar 8 (some 8)) (.look (.alt (.lit "     ".data) .eol))

/-- `"(?<=CODEF )/d{2}|(?<=CODEF)/d{2}"`, kept verbatim: the source
wrote `/d`, a literal slash and a repeated literal `d`. -/
def codefRE : RE :=
  .alt
    (.cat (.lookb 6 (.lit "CODEF ".data))
      (.cat (.lit "/".data) (.rep (fun c => c = 'd') 2 (some 2))))
    (.cat (.lookb 5 (.lit "CODEF".data))
      (.cat (.lit "/".data) (.rep (fun c => c = 'd') 2 (some 2))))

/-- `"(?<=     )TOK(?=     |$)"` for the standalone flag tokens. -/
def flagTokRE (tok : List Char) : RE :=
  .cat (.lookb 5 (.lit "     ".data))
    (.cat (.lit tok) (.look (.alt (.lit "     ".data) .eol)))

/-- `r"\n+(?=\s{,25}(\d{2,3}) )"`: the leading-newline strip applied to
each block before field extraction. -/
def leadNLRE : RE :=
  .cat (.rep nlC 1 none)
    (.look (.cat (.rep wsChar 0 (some 25))
      (.cat (.rep digitChar 2 (some 3)) (.lit " ".data))))

/-! ### `LockUpBlock` -/

/-- The field set produced by `LockUpBlock.__init__` (full mode).
String fields are `Option` (`nan` is `none`); the four flags are 0/1. -/
structure LockUpFields where
  age : Option (List Char)
  gender : Option (List Char)
  race : Option (List Char)
  trueName : Option (List Char)
  name : Option (List Char)
  arrestNumber : Option (List Char)
  arrestingOfficerName : Option (List Char)
  arrestingOfficerBadge : Option (List Char)
  arrestDate : Option (List Char)
  courtDate : Option (List Char)
  prosecutor : Option (List Char)
  assignedName : Option (List Char)
  assignedAffiliation : Option (List Char)
  charges : Option (List Char)
  pdid : Option (List Char)
  ccn : Option (List Char)
  codef : Option (List Char)
  dvFlag : Nat
  siFlag : Nat
  pFlag : Nat
  npFlag : Nat
deriving DecidableEq, Repr

/-- The two-tier search used by most fields: a line-scoped primary
search whose match is stripped, then a fallback through `handle_nulls`. -/
def primaryThenFall (primMulti : Bool) (prim : RE) (line : List Char)
    (fallMulti : Bool) (fall : RE) (fallText : List Char)
    (fallStrip : Bool := false) : Option (List Char) :=
  match searchGroup0 primMulti prim line with
  | some s => some (pyStrip s)
  | none => handleNulls (searchGroup0 fallMulti fall fallText) fallStrip

/-- Field extraction given the three selected lines (the bodies of
`get_lo_details`, `get_arrest_details` and `get_case_details`). -/
def extractFields (block l1 l2 l3 : List Char) : LockUpFields :=
  let age := primaryThenFall false ageRE l1 false ageRE block
  let gender := primaryThenFall false genderRE l2 false genderRE block
  let race := primaryThenFall false raceLineRE l2 false raceBlockRE block
  let trueName := primaryThenFall false trueNameRE l1 false trueNameFallRE l1
  let name := primaryThenFall false nameRE l2 false nameFallRE l2 true
  let arrestNumber := handleNulls (searchGroup0 false arrestNumberRE l2)
  let officer := reSearch true officerRE l3
  let officerName :=
    match officer with
    | some sec =>
      match capSpan sec.2.2 1 with
      | some ab => some (pyStrip (slice l3 ab.1 ab.2))
      | none => none
    | none => none
  let officerBadge :=
    match officer with
    | some sec =>
      match capSpan sec.2.2 2 with
      | some ab => some (pyStrip (slice l3 ab.1 ab.2))
      | none => none
    | none => none
  let arrestDate := handleNulls (searchGroup0 false dateTimeRE l1)
  let courtDate := handleNulls (searchGroup0 false courtDateRE l3)
  let prosecutor :=
    match searchGroup0 true prosecutorRE l3 with
    | some s => some (pyStrip s)
    | none => handleNulls (searchGroup0 false prosecutorRE block)
  let assigned := searchGroup0 false assignedRE block
  let assignedName :=
    match assigned with
    | some g => handleNulls (searchGroup0 false assignedNameRE g)
    | none => none
  let assignedAffiliation :=
    match assigned with
    | some g => handleNulls (searchGroup0 false assignedAffilRE g)
    | none => none
  let charges := handleNulls (searchGroup0 true chargesRE block) true
  let pdid := handleNulls (searchGroup0 true pdidRE l1)
  let ccn := handleNulls (searchGroup0 true ccnRE l2)
  let codef := handleNulls (searchGroup0 false codefRE block)
  let dvFlag := if (reSearch true (flagTokRE "DV".data) block).isSome then 1 else 0
  let siFlag := if (reSearch true (flagTokRE "SI".data) block).isSome then 1 else 0
  let pFlag := if (reSearch true (flagTokRE "P".data) block).isSome then 1 else 0
  let npFlag := if (reSearch true (flagTokRE "NP".data) block).isSome then 1 else 0
  { age := age, gender := gender, race := race, trueName := trueName,
    name := name, arrestNumber := arrestNumber,
    arrestingOfficerName := officerName,
    arrestingOfficerBadge := officerBadge, arrestDate := arrestDate,
    courtDate := courtDate, prosecutor := prosecutor,
    assignedName := assignedName,
    assignedAffiliation := assignedAffiliation, charges := charges,
    pdid := pdid, ccn := ccn, codef := codef, dvFlag := dvFlag,
    siFlag := siFlag, pFlag := pFlag, npFlag := npFlag }

/-- `LockUpBlock(lu_number, block)` (full mode, `errored_lu=False`).
The source calls `select_line` lazily inside each field; the three line
selections are hoisted here, which raises under exactly the same
condition (full mode always reaches a line-2 and a line-3 selection,
and `select_line` is deterministic). -/
def lockUpBlockFields (block : List Char) : Except String LockUpFields := do
  let l1 ← selectLine block 1
  let l2 ← selectLine block 2
  let l3 ← selectLine block 3
  pure (extractFields block l1 l2 l3)

/-! ### `scrape_lulist` -/

/-- One output row (each Python dict appended to `d`).  Keys absent from
a dict are `none`. -/
structure Row where
  courtDate : Option (List Char)
  lockupNumber : Nat
  arrestNumber : Option (List Char) := none
  prosecutor : Option (List Char) := none
  trueName : Option (List Char) := none
  name : Option (List Char) := none
  race : Option (List Char) := none
  gender : Option (List Char) := none
  age : Option (List Char) := none
  defenseName : Option (List Char) := none
  defenseAffiliation : Option (List Char) := none
  arrestingOfficerName : Option (List Char) := none
  arrestingOfficerBadge : Option (List Char) := none
  arrestDate : Option (List Char) := none
  charges : Option (List Char) := none
  pdid : Option (List Char) := none
  ccn : Option (List Char) := none
  codef : Option (List Char) := none
  dvFlag : Option Nat := none
  siFlag : Option Nat := none
  pFlag : Option Nat := none
  npFlag : Option Nat := none
  scraperWarnings : Option (List Char) := none
deriving DecidableEq, Repr

/-- The warning text of the placeholder branch. -/
def missingWarning (n : Nat) : List Char :=
  ("PDF Reader Error; Could not find LU block text for " ++ Nat.repr n).data

/-- The row appended for a placeholder: the previous row's court date as
fallback (`nan` when `d` is empty), the identifier, the warning, and no
other keys. -/
def missingRow (fallback : Option (List Char)) (n : Nat) : Row :=
  { courtDate := fallback, lockupNumber := n,
    scraperWarnings := some (missingWarning n) }

/-- One iteration of the `scrape_lulist` loop.  The non-missing path
reads `lu.block` (a plain attribute: the `except KeyError` handler is
unreachable, and would itself stop at the undefined name `startpos`),
strips leading newlines before an embedded anchor-looking line, and
extracts all fields; the missing path appends the placeholder row. -/
def scrapeStep (acc : List Row) (lu : LuNum) : Except String (List Row) :=
  if ¬ lu.isMissing then do
    let block := reSubDel false leadNLRE lu.blockText
    let f ← lockUpBlockFields block
    pure (acc ++ [{
      courtDate := f.courtDate, lockupNumber := lu.number,
      arrestNumber := f.arrestNumber, prosecutor := f.prosecutor,
      trueName := f.trueName, name := f.name, race := f.race,
      gender := f.gender, age := f.age, defenseName := f.assignedName,
      defenseAffiliation := f.assignedAffiliation,
      arrestingOfficerName := f.arrestingOfficerName,
      arrestingOfficerBadge := f.arrestingOfficerBadge,
      arrestDate := f.arrestDate, charges := f.charges, pdid := f.pdid,
      ccn := f.ccn, codef := f.codef, dvFlag := some f.dvFlag,
      siFlag := some f.siFlag, pFlag := some f.pFlag,
      npFlag := some f.npFlag, scraperWarnings := none }])
  else
    let fallback :=
      match acc.getLast? with
      | some r => r.courtDate
      | none => none
    pure (acc ++ [missingRow fallback lu.number])

/-- `scrape_lulist(page)`: anchor scan, block construction, validation,
then one row per (real or placeholder) `LuNum`. -/
def scrapeLulist (page : List Char) : Except String (List Row) := do
  let raw ← createLunums page
  let lus ← validateNormalizeLunums raw
  lus.foldlM scrapeStep []

/-! ### Supporting lemmas: `takeWhile` runs and slices -/

theorem takeWhile_length_le {α : Type} (p : α → Bool) (l : List α) :
    (l.takeWhile p).length ≤ l.length := by
  induction l with
  | nil => simp
  | cons c rest ih =>
    by_cases h : p c = true
    · simp [List.takeWhile_cons, h]; omega
    · simp [List.takeWhile_cons, h]

theorem get?_of_lt_takeWhile {α : Type} (p : α → Bool) (l : List α) :
    ∀ j, j < (l.takeWhile p).length → (l.get? j).any p = true := by
  induction l with
  | nil => simp
  | cons c rest ih =>
    intro j hj
    by_cases h : p c = true
    · cases j with
      | zero => simpa [h]
      | succ j =>
        simp only [List.takeWhile_cons, h, if_true, List.length_cons] at hj
        simpa using ih j (by omega)
    · simp [List.takeWhile_cons, h] at hj

theorem get?_at_takeWhile {α : Type} (p : α → Bool) (l : List α) :
    (l.get? (l.takeWhile p).length).any p = false := by
  induction l with
  | nil => simp
  | cons c rest ih =>
    by_cases h : p c = true
    · simpa [List.takeWhile_cons, h] using ih
    · simpa [List.takeWhile_cons, h] using h

theorem takeWhile_length_eq {α : Type} (p : α → Bool) (l : List α) (w : Nat)
    (h1 : ∀ j, j < w → (l.get? j).any p = true)
    (h2 : (l.get? w).any p = false) : (l.takeWhile p).length = w := by
  induction l generalizing w with
  | nil =>
    cases w with
    | zero => simp
    | succ w => simpa using h1 0 (by omega)
  | cons c rest ih =>
    cases w with
    | zero =>
      simp only [List.get?_cons_zero, Option.any_some] at h2
      simp [List.takeWhile_cons, h2]
    | succ w =>
      have hc : p c = true := by simpa using h1 0 (by omega)
      have := ih w (fun j hj => by simpa using h1 (j + 1) (by omega))
        (by simpa using h2)
      simp [List.takeWhile_cons, hc, this]

theorem get?_drop_add (t : List Char) (i j : Nat) :
    (t.drop i).get? j = t.get? (i + j) := by
  simp [List.get?_eq_getElem?, List.getElem?_drop]

theorem runLen_le (p : Char → Bool) (t : List Char) (i : Nat) :
    runLen p t i ≤ t.length - i := by
  have := takeWhile_length_le p (t.drop i)
  simpa [runLen] using this

theorem runLen_get? (p : Char → Bool) (t : List Char) (i : Nat) :
    ∀ j, j < runLen p t i → (t.get? (i + j)).any p = true := by
  intro j hj
  have := get?_of_lt_takeWhile p (t.drop i) j hj
  rwa [get?_drop_add] at this

theorem runLen_stop (p : Char → Bool) (t : List Char) (i : Nat) :
    (t.get? (i + runLen p t i)).any p = false := by
  have := get?_at_takeWhile p (t.drop i)
  rwa [get?_drop_add] at this

theorem runLen_eq (p : Char → Bool) (t : List Char) (i w : Nat)
    (h1 : ∀ j, j < w → (t.get? (i + j)).any p = true)
    (h2 : (t.get? (i + w)).any p = false) : runLen p t i = w := by
  refine takeWhile_length_eq p (t.drop i) w ?_ ?_
  · intro j hj; rw [get?_drop_add]; exact h1 j hj
  · rw [get?_drop_add]; exact h2

theorem slice_singleton (t : List Char) (j : Nat) (c : Char)
    (h : t.get? j = some c) : slice t j (j + 1) = [c] := by
  have hd : (t.drop j).get? 0 = some c := by rw [get?_drop_add]; simpa using h
  unfold slice
  cases hdrop : t.drop j with
  | nil => rw [hdrop] at hd; simp at hd
  | cons x rest =>
    rw [hdrop] at hd
    simp only [List.get?_cons_zero, Option.some.injEq] at hd
    simp [hd, Nat.add_sub_cancel_left]

theorem slice_length (t : List Char) (a b : Nat) :
    (slice t a b).length = min (b - a) (t.length - a) := by
  simp [slice]

theorem get?_lt_length (t : List Char) (j : Nat) (c : Char)
    (h : t.get? j = some c) : j < t.length := by
  by_contra hge
  rw [List.get?_eq_getElem?, List.getElem?_eq_none (by omega)] at h
  exact Option.noConfusion h

/-! ### Supporting lemmas: matcher bounds and nonemptiness -/

theorem litAt_bound (t : List Char) (i : Nat) (s : List Char)
    (hi : i ≤ t.length) (h : litAt t i s = true) :
    i + s.length ≤ t.length := by
  unfold litAt at h
  rw [decide_eq_true_iff] at h
  have hl : (slice t i (i + s.length)).length = s.length := by rw [h]
  rw [slice_length, Nat.add_sub_cancel_left] at hl
  have hmin : min s.length (t.length - i) ≤ t.length - i :=
    min_le_right _ _
  rw [hl] at hmin
  omega

theorem mem_ite_cases {c : Prop} [Decidable c] {a b : List (Nat × Caps)}
    {y : Nat × Caps} (h : y ∈ if c then a else b) : y ∈ a ∨ y ∈ b := by
  split at h
  · exact Or.inl h
  · exact Or.inr h

theorem reMatches_bound (multi : Bool) (t : List Char) (r : RE) :
    ∀ i, i ≤ t.length → ∀ jc ∈ reMatches multi t r i,
      i ≤ jc.1 ∧ jc.1 ≤ t.length := by
  induction r with
  | cls p =>
    intro i hi jc hjc
    simp only [reMatches] at hjc
    split at hjc
    next c hg =>
      split at hjc
      next =>
        simp only [List.mem_singleton] at hjc
        subst hjc
        exact ⟨by omega, by have := get?_lt_length t i c hg; omega⟩
      next => simp at hjc
    next => simp at hjc
  | lit s =>
    intro i hi jc hjc
    simp only [reMatches] at hjc
    split at hjc
    next hl =>
      simp only [List.mem_singleton] at hjc
      subst hjc
      exact ⟨by omega, litAt_bound t i s hi hl⟩
    next => simp at hjc
  | cat a b iha ihb =>
    intro i hi jc hjc
    simp only [reMatches, List.mem_flatMap, List.mem_map] at hjc
    obtain ⟨j1, hj1, kc, hkc, heq⟩ := hjc
    have h1 := iha i hi j1 hj1
    have h2 := ihb j1.1 h1.2 kc hkc
    subst heq
    exact ⟨by omega, h2.2⟩
  | alt a b iha ihb =>
    intro i hi jc hjc
    simp only [reMatches, List.mem_append] at hjc
    rcases hjc with h | h
    · exact iha i hi jc h
    · exact ihb i hi jc h
  | rep p lo hi' =>
    intro i hi jc hjc
    simp only [reMatches, List.mem_map] at hjc
    obtain ⟨k, hk, heq2⟩ := hjc
    have hkmax : k ≤ runLen p t i := by
      unfold descRange at hk
      rw [List.mem_reverse, List.mem_range'_1] at hk
      have hle := natMin_le_left (runLen p t i) (hi'.getD (runLen p t i))
      omega
    have := runLen_le p t i
    subst heq2
    constructor
    · omega
    · omega
  | look r ihr =>
    intro i hi jc hjc
    simp only [reMatches] at hjc
    rcases mem_ite_cases hjc with h | h
    · simp at h
    · simp only [List.mem_singleton] at h
      subst h; exact ⟨Nat.le_refl i, hi⟩
  | lookb w r ihr =>
    intro i hi jc hjc
    simp only [reMatches] at hjc
    rcases mem_ite_cases hjc with h | h
    · simp only [List.mem_singleton] at h
      subst h; exact ⟨Nat.le_refl i, hi⟩
    · simp at h
  | bol =>
    intro i hi jc hjc
    simp only [reMatches] at hjc
    rcases mem_ite_cases hjc with h | h
    · simp only [List.mem_singleton] at h
      subst h; exact ⟨Nat.le_refl i, hi⟩
    · simp at h
  | eol =>
    intro i hi jc hjc
    simp only [reMatches] at hjc
    rcases mem_ite_cases hjc with h | h
    · simp only [List.mem_singleton] at h
      subst h; exact ⟨Nat.le_refl i, hi⟩
    · simp at h
  | grp n r ihr =>
    intro i hi jc hjc
    simp only [reMatches, List.mem_map] at hjc
    obtain ⟨kc, hkc, heq2⟩ := hjc
    have := ihr i hi kc hkc
    subst heq2
    exact this

theorem reMatches_cat_of_parts (multi : Bool) (t : List Char) (a b : RE)
    (i : Nat) (jc : Nat × Caps) (hjc : jc ∈ reMatches multi t a i)
    (kc : Nat × Caps) (hkc : kc ∈ reMatches multi t b jc.1) :
    (kc.1, jc.2 ++ kc.2) ∈ reMatches multi t (.cat a b) i := by
  simp only [reMatches, List.mem_flatMap, List.mem_map]
  exact ⟨jc, hjc, kc, hkc, rfl⟩

theorem rep_run_mem (multi : Bool) (p : Char → Bool) (t : List Char)
    (i : Nat) :
    (i + runLen p t i, ([] : Caps)) ∈
      reMatches multi t (.rep p 0 none) i := by
  simp only [reMatches, List.mem_map, Option.getD_none, natMin_self]
  refine ⟨runLen p t i, ?_, rfl⟩
  unfold descRange
  rw [List.mem_reverse, List.mem_range'_1]
  omega

theorem dotC_false_nl (c : Char) (h : dotC c = false) : c = '\n' := by
  unfold dotC at h
  simpa using h

theorem dotStarEol_nonempty (t : List Char) (j : Nat) (hj : j ≤ t.length) :
    reMatches true t dotStarEol j ≠ [] := by
  have hrep := rep_run_mem true dotC t j
  set e := j + runLen dotC t j with he
  have heol : (e, ([] : Caps)) ∈ reMatches true t RE.eol e := by
    have hstop := runLen_stop dotC t j
    simp only [reMatches]
    cases hg : t.get? e with
    | none =>
      have hlen : e = t.length := by
        have h1 := runLen_le dotC t j
        by_contra hne
        have hlt : e < t.length := by omega
        rw [List.get?_eq_getElem?, List.getElem?_eq_getElem hlt] at hg
        exact Option.noConfusion hg
      rw [if_pos (by simp [hlen])]
      simp
    | some c =>
      rw [← he, hg] at hstop
      simp only [Option.any_some] at hstop
      have := dotC_false_nl c hstop
      subst this
      rw [if_pos (by simp [hg])]
      simp
  have := reMatches_cat_of_parts true t (.rep dotC 0 none) .eol j
    (e, []) hrep (e, []) heol
  exact List.ne_nil_of_mem this

/-- The first newline of `l`: position, value and count bookkeeping. -/
theorem firstNL (l : List Char) (h : 0 < l.count '\n') :
    l.get? ((l.takeWhile dotC).length) = some '\n' ∧
      (l.drop ((l.takeWhile dotC).length + 1)).count '\n' + 1 =
        l.count '\n' := by
  induction l with
  | nil => simp at h
  | cons c rest ih =>
    by_cases hc : c = '\n'
    · subst hc
      have : dotC '\n' = false := by decide
      simp [List.takeWhile_cons, this, List.count_cons]
    · have hdc : dotC c = true := by simp [dotC, hc]
      have hcount : 0 < rest.count '\n' := by
        rw [List.count_cons] at h
        simpa [hc] using h
      obtain ⟨ih1, ih2⟩ := ih hcount
      refine ⟨?_, ?_⟩
      · simp only [List.takeWhile_cons, hdc, if_true, List.length_cons,
          List.get?_cons_succ]
        exact ih1
      · simp only [List.takeWhile_cons, hdc, if_true, List.length_cons,
          List.drop_succ_cons, List.count_cons]
        simpa [hc] using ih2

theorem linesPat_nonempty (t : List Char) (m : Nat) :
    ∀ i, i ≤ t.length → m ≤ (t.drop i).count '\n' →
      reMatches true t (linesPat m) i ≠ [] := by
  induction m with
  | zero =>
    intro i hi _
    simp only [linesPat, reMatches, Option.getD_some, natMin_zero]
    rw [show descRange 0 0 = [0] from rfl]
    simp
  | succ m ih =>
    intro i hi hc
    have hpos : 0 < (t.drop i).count '\n' := by omega
    obtain ⟨hnl, hcnt⟩ := firstNL (t.drop i) hpos
    set r := ((t.drop i).takeWhile dotC).length with hr
    rw [get?_drop_add] at hnl
    have hrep : (i + r, ([] : Caps)) ∈
        reMatches true t (.rep dotC 0 none) i := by
      have := rep_run_mem true dotC t i
      simpa [runLen, ← hr] using this
    have hlit : (i + r + 1, ([] : Caps)) ∈
        reMatches true t (.lit ['\n']) (i + r) := by
      simp only [reMatches]
      rw [if_pos]
      · simp
      · unfold litAt
        rw [decide_eq_true_iff]
        simpa using slice_singleton t (i + r) '\n' hnl
    have hline : (i + r + 1, ([] : Caps)) ∈
        reMatches true t linePat i := by
      have := reMatches_cat_of_parts true t (.rep dotC 0 none) (.lit ['\n'])
        i (i + r, []) hrep (i + r + 1, []) hlit
      simpa [linePat] using this
    have hbound : i + r + 1 ≤ t.length := by
      have := get?_lt_length t (i + r) '\n' hnl
      omega
    have hrest : m ≤ (t.drop (i + r + 1)).count '\n' := by
      have hdd : t.drop (i + r + 1) = (t.drop i).drop (r + 1) := by
        rw [List.drop_drop]
        congr 1
      rw [hdd]
      omega
    have hcont := ih (i + r + 1) hbound hrest
    cases hcontm : reMatches true t (linesPat m) (i + r + 1) with
    | nil => exact absurd hcontm hcont
    | cons kc rest =>
      have hkc : kc ∈ reMatches true t (linesPat m) (i + r + 1) := by
        rw [hcontm]; exact List.mem_cons_self _ _
      have := reMatches_cat_of_parts true t linePat (linesPat m) i
        (i + r + 1, []) hline kc hkc
      exact List.ne_nil_of_mem (by simpa [linesPat] using this)

theorem reSearch_isSome_of_zero (multi : Bool) (r : RE) (t : List Char)
    (h : reMatches multi t r 0 ≠ []) : (reSearch multi r t).isSome = true := by
  unfold reSearch reSearchFrom
  cases hm : reMatches multi t r 0 with
  | nil => exact absurd hm h
  | cons jc rest => simp

theorem selectLine_one_ok (t : List Char) :
    ∃ s, selectLine t 1 = .ok s := by
  unfold selectLine
  have h1 := reSearch_isSome_of_zero true dotStarEol t
    (dotStarEol_nonempty t 0 (by omega))
  cases hs : reSearch true dotStarEol t with
  | none => rw [hs] at h1; simp at h1
  | some se => exact ⟨slice t 0 se.2.1, by simp [hs]⟩

theorem selectLine_ok (t : List Char) (k : Nat) (h2 : 2 ≤ k)
    (hc : k - 1 ≤ t.count '\n') : ∃ s, selectLine t k = .ok s := by
  unfold selectLine
  rw [if_neg (by omega)]
  have hstart := reSearch_isSome_of_zero true (linesPat (k - 1)) t
    (linesPat_nonempty t (k - 1) 0 (by omega) (by simpa using hc))
  cases hs1 : reSearch true (linesPat (k - 1)) t with
  | none => rw [hs1] at hstart; simp at hstart
  | some s1 =>
    have hendm : reMatches true t (.cat (linesPat (k - 1)) dotStarEol) 0 ≠ [] := by
      have hne := linesPat_nonempty t (k - 1) 0 (by omega) (by simpa using hc)
      cases hm : reMatches true t (linesPat (k - 1)) 0 with
      | nil => exact absurd hm hne
      | cons jc rest =>
        have hjc : jc ∈ reMatches true t (linesPat (k - 1)) 0 := by
          rw [hm]; exact List.mem_cons_self _ _
        have hb := reMatches_bound true t (linesPat (k - 1)) 0 (by omega) jc hjc
        have hdse := dotStarEol_nonempty t jc.1 hb.2
        cases hm2 : reMatches true t dotStarEol jc.1 with
        | nil => exact absurd hm2 hdse
        | cons kc rest2 =>
          have hkc : kc ∈ reMatches true t dotStarEol jc.1 := by
            rw [hm2]; exact List.mem_cons_self _ _
          exact List.ne_nil_of_mem
            (reMatches_cat_of_parts true t (linesPat (k - 1)) dotStarEol 0
              jc hjc kc hkc)
    have hend := reSearch_isSome_of_zero true
      (.cat (linesPat (k - 1)) dotStarEol) t hendm
    cases hs2 : reSearch true (.cat (linesPat (k - 1)) dotStarEol) t with
    | none => rw [hs2] at hend; simp at hend
    | some s2 => exact ⟨slice t s1.2.1 s2.2.1, by simp [hs1, hs2]⟩

theorem lockUpBlockFields_isOk (b : List Char) (h : 2 ≤ b.count '\n') :
    ∃ f, lockUpBlockFields b = .ok f := by
  obtain ⟨l1, h1⟩ := selectLine_one_ok b
  obtain ⟨l2, h2⟩ := selectLine_ok b 2 (by omega) (by omega)
  obtain ⟨l3, h3⟩ := selectLine_ok b 3 (by omega) (by omega)
  refine ⟨extractFields b l1 l2 l3, ?_⟩
  simp only [lockUpBlockFields, h1, h2, h3]
  rfl

/-! ### Anchor characterization (claim C6) -/

theorem ws_not_digit (c : Char) (h : wsChar c = true) : digitChar c = false := by
  unfold wsChar at h
  simp only [Bool.or_eq_true, decide_eq_true_eq] at h
  rcases h with ((((h | h) | h) | h) | h) | h <;> subst h <;> decide

theorem digit_not_ws (c : Char) (h : digitChar c = true) :
    wsChar c = false := by
  by_cases hw : wsChar c = true
  · rw [ws_not_digit c hw] at h
    exact Bool.noConfusion h
  · simpa using hw

/-- A 2- or 3-digit run followed by a space, starting at `j`. -/
def digits23SpaceAt (t : List Char) (j : Nat) : Bool :=
  (t.get? j).any digitChar && (t.get? (j + 1)).any digitChar &&
    (((t.get? (j + 2)).any digitChar && decide (t.get? (j + 3) = some ' ')) ||
      decide (t.get? (j + 2) = some ' '))

/-- Modelled from the spec: the C6 anchor contract, "line start, optional
leading whitespace, 2–3 digit number, followed by a space", with the
whitespace run allowed to be *empty*, exactly as the claim words it. -/
def specAnchorAt (t : List Char) (i : Nat) : Bool :=
  lineStart t i &&
    (List.range (t.length + 1)).any fun w =>
      (decide (∀ j, j < w → (t.get? (i + j)).any wsChar = true)) &&
      digits23SpaceAt t (i + w)

/-- C6 (amended): the anchor regex matches at a position exactly when
that position is a line start followed by one or more whitespace
characters (a run that may span blank lines) and then a 2–3 digit
number followed by a space.  In particular a line whose number begins
at column 0 is *not* matched at its own line start: `\s+` demands at
least one whitespace character. -/
theorem c6_anchor_characterization (t : List Char) (i : Nat) :
    (anchorMatchAt t i).isSome = true ↔
      (lineStart t i = true ∧ ∃ w, 1 ≤ w ∧
        (∀ j, j < w → (t.get? (i + j)).any wsChar = true) ∧
        digits23SpaceAt t (i + w) = true) := by
  constructor
  · intro h
    unfold anchorMatchAt at h
    split at h
    · simp at h
    · next hls =>
      have hls' : lineStart t i = true := by
        by_contra hc
        exact hls (by simpa using hc)
      split at h
      · simp at h
      · next hw =>
        refine ⟨hls', runLen wsChar t i, by omega, ?_, ?_⟩
        · intro j hj
          exact runLen_get? wsChar t i j hj
        · split at h
          · next hc3 =>
            simp only [digits23SpaceAt, Bool.and_eq_true, Bool.or_eq_true,
              decide_eq_true_eq]
            exact ⟨⟨hc3.1, hc3.2.1⟩, Or.inl ⟨hc3.2.2.1, hc3.2.2.2⟩⟩
          · split at h
            · next hc2 =>
              simp only [digits23SpaceAt, Bool.and_eq_true, Bool.or_eq_true,
                decide_eq_true_eq]
              exact ⟨⟨hc2.1, hc2.2.1⟩, Or.inr hc2.2.2⟩
            · simp at h
  · rintro ⟨hls, w, hw1, hwall, hdig⟩
    have hdigit0 : (t.get? (i + w)).any digitChar = true := by
      unfold digits23SpaceAt at hdig
      simp only [Bool.and_eq_true] at hdig
      exact hdig.1.1
    have hrun : runLen wsChar t i = w := by
      apply runLen_eq
      · exact hwall
      · cases hg : t.get? (i + w) with
        | none => simp
        | some c =>
          rw [hg, Option.any_some] at hdigit0
          simp [digit_not_ws c hdigit0]
    unfold anchorMatchAt
    rw [if_neg (by simp [hls])]
    simp only [hrun]
    rw [if_neg (by omega)]
    unfold digits23SpaceAt at hdig
    simp only [Bool.and_eq_true, Bool.or_eq_true, decide_eq_true_eq] at hdig
    obtain ⟨⟨hd0, hd1⟩, hrest⟩ := hdig
    rcases hrest with ⟨hd2, hsp3⟩ | hsp2
    · rw [if_pos ⟨hd0, hd1, hd2, hsp3⟩]
      simp
    · by_cases h3 : (t.get? (i + w)).any digitChar = true ∧
          (t.get? (i + w + 1)).any digitChar = true ∧
          (t.get? (i + w + 2)).any digitChar = true ∧
          t.get? (i + w + 3) = some ' '
      · rw [if_pos ⟨h3.1, h3.2.1, h3.2.2.1, h3.2.2.2⟩]
        simp
      · rw [if_neg (by exact fun hc => h3 ⟨hc.1, hc.2.1, hc.2.2.1, hc.2.2.2⟩)]
        rw [if_pos ⟨hd0, hd1, hsp2⟩]
        simp

/-! ### Concrete inputs for the executable claims -/

/-- A scanned `LuNum` with a given number and block text (the match
offsets play no role in validation). -/
def luOf (n : Nat) (b : List Char) : LuNum :=
  { match_ := some ⟨0, 1, 3, n⟩, blockText := b }

/-- Scanned identifiers `[1, 2, 3, 3, 5]` (claim C1 and the C4
counterexample). -/
def seq12335 : List LuNum :=
  [luOf 1 " 1 a".data, luOf 2 " 2 b".data, luOf 3 " 3 c".data,
    luOf 3 " 3 d".data, luOf 5 " 5 e".data]

/-- Scanned identifiers `[1, 9, 2, 3]` (the C5 counterexample): no fix
rule applies to the stray 9, and placeholder insertion then scrambles
the order. -/
def seq1923 : List LuNum :=
  [luOf 1 " 1 a".data, luOf 9 " 9 b".data, luOf 2 " 2 c".data,
    luOf 3 " 3 d".data]

/-- A three-anchor page (10, 12, 13) whose first block carries a court
date on its third line; validation synthesizes a placeholder for 11. -/
def pageA : List Char :=
  (" 10 a\nb\nc 01/02/2003\n 12 d\ne\nf\n 13 g\nh\ni\n").data

/-! ### Claim C1 -/

/-- C1: on scanned identifiers `[1,2,3,3,5]` the correction pass (driven
by the unmodified original numbers) fixes the second 3 to 4 (middle
rule) and the 5 to 4 (last rule with original predecessor 3); duplicate
detection then flags only the second 4; no placeholder is inserted. -/
theorem c1_correction_induced_duplicate :
    (validateCore seq12335).map
        (fun r => (r.number, r.isFixed, r.isDuplicate, r.isMissing)) =
      [(1, false, some false, false), (2, false, some false, false),
       (3, false, some false, false), (4, true, some false, false),
       (4, true, some true, false)] := by
  decide

/-! ### Claim C3 -/

/-- C3 (counterexample): constructing a `LockUpBlock` from the empty
block text raises (`select_line` dereferences `.end()` on a failed
search), refuting "never raises ... for every input string". -/
theorem c3_counterexample :
    lockUpBlockFields [] = .error "AttributeError" := by
  rfl

/-- C3 (amended): field extraction never raises on a block text holding
at least two newlines (i.e. at least three lines, which every
well-formed block has); all fields are produced, absent ones as `none`,
never partial values. -/
theorem c3_no_raise_with_three_lines (b : List Char)
    (h : 2 ≤ b.count '\n') : ∃ f, lockUpBlockFields b = .ok f := by
  obtain ⟨f, hf⟩ := lockUpBlockFields_isOk b h
  exact ⟨f, hf⟩

/-- C3 witness: a concrete three-line block extracts successfully. -/
theorem c3_no_raise_with_three_lines_witness :
    2 ≤ ("a\nb\nc".data).count '\n' ∧
      ∃ f, lockUpBlockFields ("a\nb\nc".data) = .ok f :=
  ⟨by decide, c3_no_raise_with_three_lines ("a\nb\nc".data) (by decide)⟩

/-! ### Claim C4 (counterexample) -/

/-- C4 (counterexample): on input `[1,2,3,3,5]` the corrected range is
`[1, 4]` but the validated output holds two records numbered 4 (the
fixed one and its duplicate-flagged twin), refuting "exactly one record
per integer in range". -/
theorem c4_counterexample :
    minNat (luNumbers (fixPass seq12335)) = 1 ∧
      maxNat (luNumbers (fixPass seq12335)) = 4 ∧
      ((validateCore seq12335).filter (fun r => r.number = 4)).length = 2 := by
  decide

/-! ### Claim C5 (counterexample) -/

/-- C5 (counterexample): on scanned identifiers `[1,9,2,3]` no fix rule
applies, the placeholders 4–8 are inserted before the stray 9, and the
final identifier list `[1,4,5,6,7,8,9,2,3]` is not ascending. -/
theorem c5_counterexample :
    luNumbers (validateCore seq1923) = [1, 4, 5, 6, 7, 8, 9, 2, 3] ∧
      ¬ (luNumbers (validateCore seq1923)).Pairwise (· ≤ ·) := by
  decide

/-! ### Claim C6 (counterexample) -/

/-- C6 (counterexample): the page `"12 x"` satisfies the spec's wording
(line start, *optional* whitespace, 2-digit number, space) at position
0, yet the anchor regex does not match there and the scan finds no
anchor at all. -/
theorem c6_counterexample :
    specAnchorAt ("12 x".data) 0 = true ∧
      anchorMatchAt ("12 x".data) 0 = none ∧
      findAnchors ("12 x".data) = [] := by
  decide

/-! ### Claim C7 (counterexample) -/

/-- C7 (counterexample): on `pageA` the placeholder record for 11 is
emitted with `court_date` inherited from record 10 (`01/02/2003`),
not null, refuting "every extracted field of such a record, including
court_date, is null". -/
theorem c7_counterexample :
    ((scrapeLulist pageA).toOption.bind (fun rows => rows.get? 1)).map
        (fun r => (r.lockupNumber, r.courtDate, r.scraperWarnings, r.age,
          r.gender, r.name, r.arrestDate)) =
      some (11, some "01/02/2003".data, some (missingWarning 11), none,
        none, none, none) := by
  rfl

/-- C7 (amended): a placeholder row carries only its identifier, a
warning, and a `court_date` inherited from the previously emitted row
(null when there is none); every other field is absent, and the
placeholder's block text is empty. -/
theorem c7_placeholder_row_shape (acc : List Row) (lu : LuNum)
    (h : lu.isMissing = true) :
    scrapeStep acc lu = .ok (acc ++
        [{ courtDate := (acc.getLast?).bind Row.courtDate,
           lockupNumber := lu.number,
           scraperWarnings := some (missingWarning lu.number) }]) ∧
      (placeholderFor lu.number).blockText = [] := by
  refine ⟨?_, rfl⟩
  unfold scrapeStep
  rw [if_neg (by simp [h])]
  cases acc.getLast? with
  | none => rfl
  | some r => rfl

/-- A concrete previously-emitted row with a court date. -/
def rowA : Row := { courtDate := some "01/02/2003".data, lockupNumber := 10 }

/-- The row the amended C7 statement predicts after `rowA`. -/
def rowB : Row :=
  { courtDate := (([rowA] : List Row).getLast?).bind Row.courtDate,
    lockupNumber := (placeholderFor 11).number,
    scraperWarnings := some (missingWarning (placeholderFor 11).number) }

/-- C7 witness: a concrete placeholder row inherits the concrete
previous court date. -/
theorem c7_placeholder_row_shape_witness :
    (placeholderFor 11).isMissing = true ∧
      (scrapeStep [rowA] (placeholderFor 11) = .ok ([rowA] ++ [rowB]) ∧
        (placeholderFor (placeholderFor 11).number).blockText = []) :=
  ⟨rfl, c7_placeholder_row_shape [rowA] (placeholderFor 11) rfl⟩

/-! ### Claim C8 -/

/-- C8: `create_lunums` raises the fatal no-anchors `ValueError` exactly
when the anchor scan finds nothing; with at least one anchor it returns
normally; and the error propagates out of `scrape_lulist` unrecovered. -/
theorem c8_error_iff_no_anchors (t : List Char) :
    ((createLunums t).isOk = true ↔ findAnchors t ≠ []) ∧
      (findAnchors t = [] →
        createLunums t =
            .error "No Lock Up Numbers Found! Check the Lock up list." ∧
          scrapeLulist t =
            .error "No Lock Up Numbers Found! Check the Lock up list.") := by
  have hcr : findAnchors t = [] →
      createLunums t =
        .error "No Lock Up Numbers Found! Check the Lock up list." := by
    intro hnil
    unfold createLunums
    rw [hnil]
  constructor
  · constructor
    · intro h hnil
      rw [hcr hnil] at h
      simp [Except.isOk, Except.toBool] at h
    · intro hne
      unfold createLunums
      cases hfa : findAnchors t with
      | nil => exact absurd hfa hne
      | cons m ms => simp [Except.isOk, Except.toBool]
  · intro hnil
    refine ⟨hcr hnil, ?_⟩
    unfold scrapeLulist
    rw [hcr hnil]
    rfl

/-! ### Claim C2 -/

/-- The block end used by `create_lunums` for anchor `i`: the next
anchor's match start, or the text length for the last anchor. -/
def nextAnchorEnd (t : List Char) (ms : List AnchorMatch) (i : Nat) : Nat :=
  match ms.get? (i + 1) with
  | some m2 => m2.start
  | none => t.length

theorem buildBlocks_length (t : List Char) :
    ∀ ms : List AnchorMatch, (buildBlocks t ms).length = ms.length := by
  intro ms
  induction ms with
  | nil => rfl
  | cons m rest ih =>
    cases rest with
    | nil => rfl
    | cons m2 rest2 =>
      show (buildBlocks t (m :: m2 :: rest2)).length = _
      rw [buildBlocks]
      simpa using ih

theorem buildBlocks_get? (t : List Char) :
    ∀ (ms : List AnchorMatch) (i : Nat),
      (buildBlocks t ms).get? i = (ms.get? i).map (fun m =>
        { match_ := some m,
          blockText := slice t m.start (nextAnchorEnd t ms i) }) := by
  intro ms
  induction ms with
  | nil => intro i; rfl
  | cons m rest ih =>
    intro i
    cases rest with
    | nil =>
      cases i with
      | zero => rfl
      | succ j => cases j <;> rfl
    | cons m2 rest2 =>
      cases i with
      | zero => rfl
      | succ j =>
        show (buildBlocks t (m2 :: rest2)).get? j = _
        rw [ih j]
        rfl

/-- C2: when the anchor scan finds `n ≥ 1` matches, `create_lunums`
returns exactly `n` blocks in order; block `i` carries anchor `i` and
the page substring from its match start to the next anchor's match
start (the page end for the last). -/
theorem c2_segmentation_complete (t : List Char) (h : findAnchors t ≠ []) :
    ∃ bs, createLunums t = .ok bs ∧
      bs.length = (findAnchors t).length ∧
      ∀ i m, (findAnchors t).get? i = some m →
        bs.get? i = some { match_ := some m,
                           blockText := slice t m.start (nextAnchorEnd t (findAnchors t) i) } := by
  cases hfa : findAnchors t with
  | nil => exact absurd hfa h
  | cons m0 ms0 =>
    refine ⟨buildBlocks t (m0 :: ms0), ?_, buildBlocks_length t _, ?_⟩
    · unfold createLunums
      rw [hfa]
    · intro i m hm
      rw [buildBlocks_get? t (m0 :: ms0) i, hm]
      rfl

/-- A two-anchor page for the C2 witness. -/
def pageW : List Char := (" 10 a\n 11 b").data

/-- C2 witness: the two-anchor page segments into its two blocks. -/
theorem c2_segmentation_complete_witness :
    findAnchors pageW ≠ [] ∧
      ∃ bs, createLunums pageW = .ok bs ∧
        bs.length = (findAnchors pageW).length ∧
        ∀ i m, (findAnchors pageW).get? i = some m →
          bs.get? i = some { match_ := some m,
                             blockText := slice pageW m.start (nextAnchorEnd pageW (findAnchors pageW) i) } :=
  ⟨by decide, c2_segmentation_complete pageW (by decide)⟩

/-- Scanned identifiers `[10, 12]` (witnesses): one out-of-order event,
the last element is fixed to 11. -/
def seqW : List LuNum :=
  [luOf 10 " 10 a".data, luOf 12 " 12 b".data]

/-! ### Claim C10 -/

theorem fixTarget_zero (nums : List Nat) : fixTarget nums 0 = none := by
  unfold fixTarget
  rw [if_neg (by omega)]
  by_cases hn : 1 < nums.length
  · rw [if_pos ⟨rfl, hn⟩]
    rw [if_neg]
    rintro ⟨h1 | h1, h2⟩
    · exact h1 rfl
    · exact h1 h2
  · rw [if_neg (fun hc => hn hc.2)]
    rw [if_neg (fun hc => hn hc.2)]

theorem applyFix_zero (nums : List Nat) (lu : LuNum) :
    applyFix nums 0 lu = { lu with isDuplicate := some false } := by
  unfold applyFix
  rw [fixTarget_zero]

theorem flagDups_cons_notmem (x : LuNum) (rest : List LuNum) (s : List Nat)
    (h : x.number ∉ s) :
    flagDups (x :: rest) s = x :: flagDups rest (x.number :: s) := by
  rw [flagDups]
  rw [if_neg h]

theorem fixPass_cons (lu : LuNum) (rest : List LuNum) :
    ∃ rest2, fixPass (lu :: rest) =
      { lu with isDuplicate := some false } :: rest2 := by
  unfold fixPass
  split
  · refine ⟨rest.mapIdx
      (fun i lu2 => applyFix (luNumbers (lu :: rest)) (i + 1) lu2), ?_⟩
    rw [List.mapIdx_cons, applyFix_zero]
  · refine ⟨rest.map (fun lu2 => { lu2 with isDuplicate := some false }), ?_⟩
    rw [List.map_cons]

theorem filter_insertPlaceholder (l : List LuNum) (v : Nat) :
    (insertPlaceholder l v).filter (fun r => !r.isMissing) =
      l.filter (fun r => !r.isMissing) := by
  unfold insertPlaceholder
  rw [List.filter_append, List.filter_append]
  rw [show List.filter (fun r => !r.isMissing) [placeholderFor v] = []
    from rfl]
  rw [List.append_nil, ← List.filter_append, List.take_append_drop]

theorem filter_foldl_placeholders (ms : List Nat) :
    ∀ l : List LuNum,
      (ms.foldl insertPlaceholder l).filter (fun r => !r.isMissing) =
        l.filter (fun r => !r.isMissing) := by
  induction ms with
  | nil => intro l; rfl
  | cons v ms ih =>
    intro l
    rw [List.foldl_cons, ih, filter_insertPlaceholder]

/-- C10: validation never alters the block that was first in the input:
`start_num` is overwritten with its scanned number, making the
first-position fix unsatisfiable, so the first non-placeholder record of
the output is the first input block itself (duplicate flag cleared),
unfixed and with its original identifier. -/
theorem c10_first_block_unaltered (ls : List LuNum) (h : ls ≠ [])
    (h2 : (ls.head h).fixedNumber = none)
    (h3 : (ls.head h).isMissing = false) :
    ((validateCore ls).filter (fun r => !r.isMissing)).head? =
        some { ls.head h with isDuplicate := some false } ∧
      LuNum.isFixed { ls.head h with isDuplicate := some false } = false ∧
      LuNum.number { ls.head h with isDuplicate := some false } =
        LuNum.number (ls.head h) := by
  refine ⟨?_, by simp [LuNum.isFixed, h2], rfl⟩
  cases ls with
  | nil => exact absurd rfl h
  | cons lu rest =>
    have h3' : lu.isMissing = false := h3
    unfold validateCore
    rw [filter_foldl_placeholders]
    obtain ⟨rest2, hfix⟩ := fixPass_cons lu rest
    rw [hfix]
    rw [flagDups_cons_notmem _ _ _ (by simp)]
    rw [List.filter_cons]
    rw [if_pos (by simp [h3'])]
    rfl

/-- C10 witness: a concrete two-block list keeps its first block
untouched. -/
theorem c10_first_block_unaltered_witness :
    (seqW ≠ [] ∧ (seqW.head (by decide)).fixedNumber = none ∧
        (seqW.head (by decide)).isMissing = false) ∧
      (((validateCore seqW).filter (fun r => !r.isMissing)).head? =
          some { seqW.head (by decide) with isDuplicate := some false } ∧
        LuNum.isFixed
            { seqW.head (by decide) with isDuplicate := some false } =
          false ∧
        LuNum.number
            { seqW.head (by decide) with isDuplicate := some false } =
          LuNum.number (seqW.head (by decide))) :=
  ⟨⟨by decide, by decide, by decide⟩,
    c10_first_block_unaltered seqW (by decide) (by decide) (by decide)⟩

/-! ### Claim C4 (amended) -/

theorem luNumbers_flagDups (l : List LuNum) :
    ∀ s, luNumbers (flagDups l s) = luNumbers l := by
  induction l with
  | nil => intro s; rfl
  | cons x rest ih =>
    intro s
    rw [flagDups]
    show LuNum.number _ :: luNumbers (flagDups rest (x.number :: s)) =
      LuNum.number x :: luNumbers rest
    rw [ih]
    congr 1
    split <;> rfl

theorem mem_insertPlaceholder_of_mem {x : LuNum} {l : List LuNum} (v : Nat)
    (h : x ∈ l) : x ∈ insertPlaceholder l v := by
  unfold insertPlaceholder
  rw [← List.take_append_drop (insertPos v l) l] at h
  rcases List.mem_append.mp h with h | h
  · exact List.mem_append.mpr (Or.inl (List.mem_append.mpr (Or.inl h)))
  · exact List.mem_append.mpr (Or.inr h)

theorem placeholder_mem_insert (l : List LuNum) (v : Nat) :
    placeholderFor v ∈ insertPlaceholder l v := by
  unfold insertPlaceholder
  exact List.mem_append.mpr (Or.inl (List.mem_append.mpr (Or.inr (by simp))))

theorem mem_foldl_insert {x : LuNum} (ms : List Nat) :
    ∀ l, x ∈ l → x ∈ ms.foldl insertPlaceholder l := by
  induction ms with
  | nil => intro l h; exact h
  | cons v ms ih =>
    intro l h
    rw [List.foldl_cons]
    exact ih _ (mem_insertPlaceholder_of_mem v h)

theorem placeholder_mem_foldl (ms : List Nat) :
    ∀ l, ∀ v ∈ ms, placeholderFor v ∈ ms.foldl insertPlaceholder l := by
  induction ms with
  | nil => intro l v hv; simp at hv
  | cons u ms ih =>
    intro l v hv
    rw [List.foldl_cons]
    rcases List.mem_cons.mp hv with hv | hv
    · subst hv
      exact mem_foldl_insert ms _ (placeholder_mem_insert l v)
    · exact ih _ v hv

/-- C4 (amended): after validation, every integer between the minimum
and maximum of the corrected identifiers is carried by *at least* one
output record (real, duplicate-flagged, or placeholder); exactness
fails precisely at duplicated values. -/
theorem c4_at_least_one_per_range (ls : List LuNum) (h : ls ≠ [])
    (k : Nat) (hk1 : minNat (luNumbers (fixPass ls)) ≤ k)
    (hk2 : k ≤ maxNat (luNumbers (fixPass ls))) :
    ∃ r ∈ validateCore ls, r.number = k := by
  unfold validateCore
  by_cases hmem : k ∈ luNumbers (fixPass ls)
  · have hmem2 : k ∈ luNumbers (flagDups (fixPass ls) []) := by
      rw [luNumbers_flagDups]
      exact hmem
    obtain ⟨r, hr, hrk⟩ := List.mem_map.mp hmem2
    exact ⟨r, mem_foldl_insert _ _ hr, hrk⟩
  · have hk : k ∈ missingNumbers (luNumbers (fixPass ls)) := by
      unfold missingNumbers
      rw [List.mem_filter]
      refine ⟨?_, by simpa using hmem⟩
      rw [List.mem_range'_1]
      omega
    exact ⟨placeholderFor k, placeholder_mem_foldl _ _ k hk, rfl⟩

/-- C4 witness: on corrected identifiers `[10, 11]`, identifier 11 is
carried by an output record. -/
theorem c4_at_least_one_per_range_witness :
    (seqW ≠ [] ∧ minNat (luNumbers (fixPass seqW)) ≤ 11 ∧
        11 ≤ maxNat (luNumbers (fixPass seqW))) ∧
      ∃ r ∈ validateCore seqW, r.number = 11 :=
  ⟨⟨by decide, by decide, by decide⟩,
    c4_at_least_one_per_range seqW (by decide) 11 (by decide) (by decide)⟩

/-! ### Claim C5 (amended) -/

/-- The output-order relation of the amended C5: ascending identifiers,
strictly except that a later record repeating a value must be
duplicate-flagged. -/
def recR (a b : LuNum) : Prop :=
  a.number ≤ b.number ∧ (a.number = b.number → b.isDuplicate = some true)

theorem luNumbers_cons (x : LuNum) (rest : List LuNum) :
    luNumbers (x :: rest) = x.number :: luNumbers rest := rfl

theorem flagDups_mem_shape (l : List LuNum) :
    ∀ s, ∀ y ∈ flagDups l s, ∃ z ∈ l, y.number = z.number ∧
      (y.number ∈ s → y.isDuplicate = some true) := by
  induction l with
  | nil => intro s y hy; rw [flagDups] at hy; simp at hy
  | cons x rest ih =>
    intro s y hy
    rw [flagDups] at hy
    rcases List.mem_cons.mp hy with hy | hy
    · subst hy
      by_cases hp : x.number ∈ s
      · rw [if_pos hp]
        exact ⟨x, List.mem_cons_self _ _, rfl, fun _ => rfl⟩
      · rw [if_neg hp]
        exact ⟨x, List.mem_cons_self _ _, rfl, fun hmem => absurd hmem hp⟩
    · obtain ⟨z, hz, h1, h2⟩ := ih (x.number :: s) y hy
      exact ⟨z, List.mem_cons_of_mem _ hz, h1,
        fun hmem => h2 (List.mem_cons_of_mem _ hmem)⟩

theorem flagDups_pairwise (l : List LuNum) :
    ∀ s, (luNumbers l).Pairwise (· ≤ ·) → (flagDups l s).Pairwise recR := by
  induction l with
  | nil => intro s _; rw [flagDups]; exact List.Pairwise.nil
  | cons x rest ih =>
    intro s hs
    rw [luNumbers_cons, List.pairwise_cons] at hs
    rw [flagDups]
    refine List.pairwise_cons.mpr ⟨?_, ih (x.number :: s) hs.2⟩
    intro y hy
    obtain ⟨z, hz, h1, h2⟩ := flagDups_mem_shape rest (x.number :: s) y hy
    have hxz : x.number ≤ z.number :=
      hs.1 z.number (List.mem_map_of_mem _ hz)
    have hnum : (if x.number ∈ s then
        { x with isDuplicate := some true } else x).number = x.number := by
      split <;> rfl
    constructor
    · rw [hnum, h1]
      exact hxz
    · intro heq
      rw [hnum] at heq
      exact h2 (heq ▸ List.mem_cons_self _ _)

theorem mem_insertPlaceholder_cases {x : LuNum} {l : List LuNum} {v : Nat}
    (h : x ∈ insertPlaceholder l v) : x ∈ l ∨ x = placeholderFor v := by
  unfold insertPlaceholder at h
  rcases List.mem_append.mp h with h | h
  · rcases List.mem_append.mp h with h | h
    · refine Or.inl ?_
      rw [← List.take_append_drop (insertPos v l) l]
      exact List.mem_append.mpr (Or.inl h)
    · exact Or.inr (by simpa using h)
  · refine Or.inl ?_
    rw [← List.take_append_drop (insertPos v l) l]
    exact List.mem_append.mpr (Or.inr h)

theorem insertPos_take_drop (v : Nat) (l : List LuNum) :
    l.take (insertPos v l) = l.takeWhile (fun r => r.number < v) ∧
      l.drop (insertPos v l) = l.dropWhile (fun r => r.number < v) := by
  induction l with
  | nil => exact ⟨rfl, rfl⟩
  | cons x rest ih =>
    by_cases hx : x.number < v
    · rw [insertPos, if_pos hx]
      constructor
      · rw [List.take_succ_cons, List.takeWhile_cons,
          if_pos (decide_eq_true hx), ih.1]
      · rw [List.drop_succ_cons, List.dropWhile_cons,
          if_pos (decide_eq_true hx), ih.2]
    · rw [insertPos, if_neg hx]
      constructor
      · rw [List.take_zero, List.takeWhile_cons,
          if_neg (by simpa using hx)]
      · rw [List.drop_zero, List.dropWhile_cons,
          if_neg (by simpa using hx)]

theorem pairwise_insertPlaceholder (l : List LuNum) (v : Nat)
    (hp : l.Pairwise recR) (hf : ∀ x ∈ l, x.number ≠ v) :
    (insertPlaceholder l v).Pairwise recR := by
  unfold insertPlaceholder
  obtain ⟨ht, hd⟩ := insertPos_take_drop v l
  rw [ht, hd]
  have hsplit := (List.takeWhile_append_dropWhile
    (fun r => decide (r.number < v)) l).symm
  have hp2 := hp
  rw [show l.Pairwise recR =
      (l.takeWhile (fun r => decide (r.number < v)) ++
        l.dropWhile (fun r => decide (r.number < v))).Pairwise recR from by
    rw [← hsplit]] at hp2
  rw [List.pairwise_append] at hp2
  obtain ⟨hpT, hpD, hTD⟩ := hp2
  rw [List.pairwise_append]
  refine ⟨?_, hpD, ?_⟩
  · rw [List.pairwise_append]
    refine ⟨hpT, by simp, ?_⟩
    intro a ha b hb
    rw [List.mem_singleton] at hb
    subst hb
    have hav : a.number < v := by
      simpa using List.mem_takeWhile_imp ha
    exact ⟨Nat.le_of_lt hav, fun heq => absurd heq (Nat.ne_of_lt hav)⟩
  · intro a ha b hb
    rcases List.mem_append.mp ha with ha | ha
    · exact hTD a ha b hb
    · rw [List.mem_singleton] at ha
      subst ha
      have hbl : b ∈ l := by
        rw [← List.takeWhile_append_dropWhile
          (fun r => decide (r.number < v)) l]
        exact List.mem_append.mpr (Or.inr hb)
      have hne : b.number ≠ v := hf b hbl
      cases hD : l.dropWhile (fun r => decide (r.number < v)) with
      | nil => rw [hD] at hb; simp at hb
      | cons b0 D2 =>
        rw [hD] at hb hpD
        have hb0 : ¬ (b0.number < v) := by
          have hh := List.head?_dropWhile_not
            (fun r => decide (r.number < v)) l
          rw [hD] at hh
          simpa using hh
        have hvb : v ≤ b.number := by
          rcases List.mem_cons.mp hb with hb | hb
          · subst hb; omega
          · have := (List.rel_of_pairwise_cons hpD hb).1
            omega
        exact ⟨hvb, fun heq => absurd heq.symm hne⟩

theorem pairwise_foldl_insert (ms : List Nat) :
    ∀ l, l.Pairwise recR → ms.Pairwise (· < ·) →
      (∀ v ∈ ms, ∀ x ∈ l, x.number ≠ v) →
      (ms.foldl insertPlaceholder l).Pairwise recR := by
  induction ms with
  | nil => intro l hp _ _; exact hp
  | cons v ms ih =>
    intro l hp hms hf
    rw [List.foldl_cons]
    refine ih _ (pairwise_insertPlaceholder l v hp
      (fun x hx => hf v (List.mem_cons_self _ _) x hx))
      (List.Pairwise.of_cons hms) ?_
    intro u hu x hx
    rcases mem_insertPlaceholder_cases hx with hx | hx
    · exact hf u (List.mem_cons_of_mem _ hu) x hx
    · subst hx
      have hvu : v < u := List.rel_of_pairwise_cons hms hu
      exact Nat.ne_of_lt hvu

/-- C5 (amended): whenever the post-correction identifier sequence is
ascending, the final validated list is ascending by identifier,
strictly except where duplicate-flagged records repeat a value; the
general claim fails (see the counterexample) because the correction
pass need not produce an ascending sequence. -/
theorem c5_ascending_when_corrected_sorted (ls : List LuNum) (h : ls ≠ [])
    (hs : (luNumbers (fixPass ls)).Pairwise (· ≤ ·)) :
    (validateCore ls).Pairwise recR := by
  unfold validateCore
  refine pairwise_foldl_insert _ _ (flagDups_pairwise _ [] hs) ?_ ?_
  · exact (List.pairwise_lt_range' _ _).filter _
  · intro v hv x hx
    have hvnot : v ∉ luNumbers (fixPass ls) := by
      have := (List.mem_filter.mp hv).2
      simpa using this
    intro heq
    apply hvnot
    rw [← heq, ← luNumbers_flagDups (fixPass ls) []]
    exact List.mem_map_of_mem _ hx

/-- C5 witness: on input identifiers `[1,2,3,3,5]` the corrected
sequence `[1,2,3,4,4]` is ascending, so the final list is ascending
with the repeated 4 duplicate-flagged. -/
theorem c5_ascending_when_corrected_sorted_witness :
    (seq12335 ≠ [] ∧
        (luNumbers (fixPass seq12335)).Pairwise (· ≤ ·)) ∧
      (validateCore seq12335).Pairwise recR :=
  ⟨⟨by decide, by decide⟩,
    c5_ascending_when_corrected_sorted seq12335 (by decide) (by decide)⟩

/-- C8 witness: a page with no anchors errors all the way out. -/
theorem c8_error_iff_no_anchors_witness :
    findAnchors ("xyz".data) = [] ∧
      createLunums ("xyz".data) =
          .error "No Lock Up Numbers Found! Check the Lock up list." ∧
        scrapeLulist ("xyz".data) =
          .error "No Lock Up Numbers Found! Check the Lock up list." :=
  ⟨by decide, ((c8_error_iff_no_anchors ("xyz".data)).2 (by decide)).1,
    ((c8_error_iff_no_anchors ("xyz".data)).2 (by decide)).2⟩

end Scraper
